import Mathlib

/-!
Shallow embedding of the heuristic scoring engine of the
"Assignment Plagiarism & AI Content Detection" repository
(`server.js` and the client-side analysis script), together with proofs
of the testable properties stated in its specification.

Conventions of the embedding:
* JavaScript strings are modelled as `String` / `List Char`; offsets are
  character positions (the analysed texts are ASCII, where JS UTF-16
  indices coincide with character indices).
* JavaScript numbers are modelled as exact rationals (`ℚ`).  The only
  place the code takes a square root (`stddev`) is either compared with a
  constant — modelled by comparing the variance with the squared
  constant — or used as an opaque nonnegative value, modelled by an
  explicit `sqrtQ` function parameter.
* `Math.round` is `jsRound`, `Math.floor` on naturals is `Nat` division.
-/

/-- The JavaScript `\s` whitespace class (the characters relevant here are
the ASCII ones; the Unicode members are included for completeness). -/
def jsIsWs (c : Char) : Bool :=
  c.toNat = 32 || c.toNat = 9 || c.toNat = 10 || c.toNat = 11 || c.toNat = 12 ||
  c.toNat = 13 || c.toNat = 160 || c.toNat = 5760 ||
  (8192 ≤ c.toNat && c.toNat ≤ 8202) || c.toNat = 8232 || c.toNat = 8233 ||
  c.toNat = 8239 || c.toNat = 8287 || c.toNat = 12288 || c.toNat = 65279

/-- The punctuation class stripped by `normalizeToWords` in `server.js`:
`[\.,\\/#!$%\^&\*;:{}=\-_`~()\[\]\"'<>?@+]` (note it contains a literal
backslash, written `\\` in the regex). -/
def serverPunct : List Char :=
  ['.', ',', Char.ofNat 92, '/', '#', '!', '$', '%', '^', '&', '*', ';', ':',
   Char.ofNat 123, Char.ofNat 125, '=', '-', '_', Char.ofNat 96, '~', '(',
   ')', '[', ']', Char.ofNat 34, Char.ofNat 39, '<', '>', '?', '@', '+']

/-- The punctuation class stripped by the client-side `normalizeToWords`:
identical to the server one except that `\/` denotes only `/`, so no
literal backslash is stripped. -/
def clientPunct : List Char :=
  ['.', ',', '/', '#', '!', '$', '%', '^', '&', '*', ';', ':',
   Char.ofNat 123, Char.ofNat 125, '=', '-', '_', Char.ofNat 96, '~', '(',
   ')', '[', ']', Char.ofNat 34, Char.ofNat 39, '<', '>', '?', '@', '+']

/-- Membership in the server punctuation class. -/
def isServerPunct (c : Char) : Bool := serverPunct.contains c

/-- Membership in the client punctuation class. -/
def isClientPunct (c : Char) : Bool := clientPunct.contains c

/-- Sentence terminators `[.!?]` (code points 46, 33, 63). -/
def isTermB (c : Char) : Bool := c.toNat = 46 || c.toNat = 33 || c.toNat = 63

/-- The JavaScript `\w` word-character class `[A-Za-z0-9_]`,
used for `\b` word boundaries. -/
def isWordChar (c : Char) : Bool :=
  (65 ≤ c.toNat && c.toNat ≤ 90) || (97 ≤ c.toNat && c.toNat ≤ 122) ||
  (48 ≤ c.toNat && c.toNat ≤ 57) || c.toNat = 95

/-- `.replace(/\s+/g, ' ')`: replace every maximal run of whitespace by a
single space.  The flag records whether the previous character belonged
to a whitespace run that has already produced its space. -/
def collapseWsAux : Bool → List Char → List Char
  | _, [] => []
  | inRun, c :: rest =>
    if jsIsWs c then
      if inRun then collapseWsAux true rest
      else ' ' :: collapseWsAux true rest
    else c :: collapseWsAux false rest

/-- `.replace(/\s+/g, ' ')` on a character list. -/
def collapseWs (l : List Char) : List Char := collapseWsAux false l

/-- `.trim()`: drop whitespace from both ends. -/
def trimChars (l : List Char) : List Char :=
  ((l.dropWhile jsIsWs).reverse.dropWhile jsIsWs).reverse

/-- `.split(sep)` for a single-character separator: every occurrence of
the separator closes a field, and empty fields are kept (as in JS). -/
def splitCharAux (sep : Char) (acc : List Char) : List Char → List (List Char)
  | [] => [acc.reverse]
  | c :: rest =>
    if c = sep then acc.reverse :: splitCharAux sep [] rest
    else splitCharAux sep (c :: acc) rest

/-- `.split(sep)` for a single-character separator. -/
def splitChar (sep : Char) (l : List Char) : List (List Char) :=
  splitCharAux sep [] l

/-- `normalizeToWords` over character lists (shared between server and
client up to the punctuation class `isP`): lowercase, strip punctuation,
collapse whitespace, trim, split on space, drop empty tokens. -/
def nwList (isP : Char → Bool) (l : List Char) : List (List Char) :=
  (splitChar ' '
    (trimChars (collapseWs ((l.map Char.toLower).filter (fun c => !(isP c)))))).filter
    (fun w => !w.isEmpty)

/-- `normalizeToWords` from `server.js`. -/
def normalizeToWords (text : String) : List String :=
  (nwList isServerPunct text.data).map String.mk

/-- The client-side `normalizeToWords` (same pipeline; its punctuation
class lacks the backslash, and its early return on the empty cleaned
string yields the same `[]` the final filter produces). -/
def normalizeToWordsClient (text : String) : List String :=
  (nwList isClientPunct text.data).map String.mk

/-- `words.join(' ')` over character lists: the words in sequence with a
single space between consecutive words. -/
def joinWordsChars : List (List Char) → List Char
  | [] => []
  | [w] => w
  | w :: rest => w ++ ' ' :: joinWordsChars rest

/-- `words.join(' ')`. -/
def joinSpace (ws : List String) : String :=
  String.mk (joinWordsChars (ws.map String.data))

/-- `mean` from the source: `0` for an empty array. -/
def listMean (l : List ℕ) : ℚ :=
  if l.length = 0 then 0 else (l.sum : ℚ) / (l.length : ℚ)

/-- The square of `stddev` from the source (sample variance, divisor
`n - 1`); the code only ever compares `stddev` against nonnegative
constants or feeds it to `Math.sqrt`, so the variance determines every
branch. -/
def sampleVarSq (l : List ℕ) : ℚ :=
  if l.length ≤ 1 then 0
  else (l.map (fun x => ((x : ℚ) - listMean l) ^ 2)).sum / ((l.length : ℚ) - 1)

/-- `Math.round` (round half up), on the nonnegative rationals produced
by the scorers this agrees with JS. -/
def jsRound (q : ℚ) : ℤ := ⌊q + 1 / 2⌋

/-- Substring containment, as in JS `String.prototype.includes`. -/
def listContainsSub (needle : List Char) : List Char → Bool
  | [] => needle.isEmpty
  | c :: rest => needle.isPrefixOf (c :: rest) || listContainsSub needle rest

/-- Per-sentence word counts used by `computeAiLikelihood` in
`server.js`: `sentences.map(s => normalizeToWords(s).length).filter(n => n > 0)`. -/
def sentLens (sentences : List String) : List ℕ :=
  (sentences.map (fun s => (normalizeToWords s).length)).filter (fun n => 0 < n)

/-- `if (avgLen >= 12 && avgLen <= 20 && sdLen < 6) score += 20;`
(`sdLen < 6` iff the sample variance is `< 36`). -/
def consistencyPts (lens : List ℕ) : ℚ :=
  if 12 ≤ listMean lens ∧ listMean lens ≤ 20 ∧ sampleVarSq lens < 36 then 20 else 0

/-- `const variation = Math.max(...lengths) - Math.min(...lengths);
if (variation < 8) score += 15;`.  On an empty array the JS spread gives
`-Infinity - Infinity = -Infinity < 8`, so the points are granted. -/
def variationPts (lens : List ℕ) : ℚ :=
  match lens with
  | [] => 15
  | _ => if (lens.max?.getD 0 : ℤ) - (lens.min?.getD 0 : ℤ) < 8 then 15 else 0

/-- `new Set(words).size / words.length`. -/
def uniqueRatio (words : List String) : ℚ :=
  (words.dedup.length : ℚ) / (words.length : ℚ)

/-- `if (uniqueRatio < 0.6) score += 15;`. -/
def vocabPts (words : List String) : ℚ :=
  if uniqueRatio words < 3 / 5 then 15 else 0

/-- `s.split(" ")[0]?.toLowerCase()`: the text before the first space,
lowercased. -/
def starterOf (s : String) : String :=
  String.mk (((splitChar ' ' s.data).headD []).map Char.toLower)

/-- The sentence-starter diversity points:
`new Set(starters).size / starters.length < 0.5` grants 10.  With no
sentences the JS ratio is `0/0 = NaN` and the comparison is false. -/
def starterPts (sentences : List String) : ℚ :=
  match sentences with
  | [] => 0
  | _ =>
    if ((sentences.map starterOf).dedup.length : ℚ) / (sentences.length : ℚ) < 1 / 2
    then 10 else 0

/-- The fixed list of stock AI phrases in `server.js`. -/
def aiPhrases : List String :=
  ["in conclusion", "overall", "furthermore", "moreover",
   "it is important to note", "this highlights that",
   "on the other hand", "as a result", "in summary",
   "this demonstrates", "it can be observed", "in addition"]

/-- `phrases.forEach(p => { if (lower.includes(p)) hits++; })` where
`lower` is the lowercased document text. -/
def phraseHits (lower : String) : ℕ :=
  (aiPhrases.filter (fun p => listContainsSub p.data lower.data)).length

/-- `score += Math.min(hits * 6, 20);`. -/
def phrasePts (lower : String) : ℚ := (min (phraseHits lower * 6) 20 : ℕ)

/-- Counter for the matches of `/,,|!!|\?\?| {2,}/g`.  The flag records
that the scanner is inside a run of spaces that has already been counted
(the regex consumes a maximal space run per match). -/
def countErrsAux : Bool → List Char → ℕ
  | _, [] => 0
  | true, ' ' :: rest => countErrsAux true rest
  | _, ',' :: ',' :: rest => 1 + countErrsAux false rest
  | _, '!' :: '!' :: rest => 1 + countErrsAux false rest
  | _, '?' :: '?' :: rest => 1 + countErrsAux false rest
  | _, ' ' :: ' ' :: rest => 1 + countErrsAux true rest
  | _, _ :: rest => countErrsAux false rest

/-- `const errors = (text.match(/,,|!!|\?\?| {2,}/g) || []).length;`. -/
def countErrs (text : String) : ℕ := countErrsAux false text.data

/-- `if (errors === 0) score += 10;`. -/
def errorPts (text : String) : ℚ := if countErrs text = 0 then 10 else 0

/-- Number of distinct words occurring more than 4 times
(`Object.values(freq).filter(v => v > 4).length`). -/
def repeatedCount (words : List String) : ℕ :=
  (words.dedup.filter (fun w => 4 < words.count w)).length

/-- `if (repeated > words.length * 0.05) score += 10;`. -/
def repeatPts (words : List String) : ℚ :=
  if (words.length : ℚ) * (1 / 20) < (repeatedCount words : ℚ) then 10 else 0

/-- The reference-corpus contribution: active only when a reference text
is configured, adding `refRatio * 30` when the overlap ratio exceeds 5%. -/
def refPts (referenceText : String) (words : List String) : ℚ :=
  if referenceText = "" then 0
  else
    let refWords := normalizeToWords referenceText
    let refRatio : ℚ :=
      ((words.filter (fun w => refWords.contains w)).length : ℚ) / (words.length : ℚ)
    if 1 / 20 < refRatio then refRatio * 30 else 0

/-- `if (sentenceCount > 8 && avgLen > 14) score += 5;`. -/
def longDocPts (sentenceCount : ℕ) (avgLen : ℚ) : ℚ :=
  if 8 < sentenceCount ∧ 14 < avgLen then 5 else 0

/-- `computeAiLikelihood` from `server.js` (document-level AI-likelihood,
0–100).  `referenceText` is the optional `reference.txt` corpus, empty
when absent. -/
def computeAiLikelihood (referenceText text : String)
    (sentences words : List String) : ℤ :=
  if words.length = 0 then 0
  else
    let lens := sentLens sentences
    let score : ℚ :=
      consistencyPts lens + variationPts lens + vocabPts words +
      starterPts sentences + phrasePts (String.mk (text.data.map Char.toLower)) +
      errorPts text + repeatPts words + refPts referenceText words +
      longDocPts sentences.length (listMean lens)
    min (jsRound score) 100

/-- `labelAiScore` from `server.js`. -/
def labelAiScore (pct : ℤ) : String :=
  if pct < 35 then "Human-written"
  else if pct < 70 then "Mixed (AI + Human)"
  else "Likely AI-generated"

/-- A sentence with positions, as produced by
`splitSentencesWithPosition` (field `stop` is the JS `end`). -/
structure JsSentence where
  text : String
  start : ℕ
  stop : ℕ
  deriving Repr, DecidableEq

/-- The loop body of `splitSentencesWithPosition`: the regex
`/[.!?]+/g` produces one match per maximal terminator run, whose end
offset closes the sentence started at the previous close.  Scanning
character by character, a match end is a terminator not followed by a
terminator; `lastClose` is the JS `lastIndex` and `pos` the current
absolute offset in `full`. -/
def splitSentencesAux (full : List Char) : ℕ → ℕ → List Char → List JsSentence
  | lastClose, _, [] =>
    if lastClose < full.length then
      let remaining := trimChars ((full.take full.length).drop lastClose)
      if remaining.isEmpty then []
      else [⟨String.mk remaining, lastClose, full.length⟩]
    else []
  | lastClose, pos, c :: rest =>
    if isTermB c && !(rest.headD ' ' |> isTermB) then
      let e := pos + 1
      let sentence := trimChars ((full.take e).drop lastClose)
      (if sentence.isEmpty then [] else [⟨String.mk sentence, lastClose, e⟩]) ++
        splitSentencesAux full e (pos + 1) rest
    else splitSentencesAux full lastClose (pos + 1) rest

/-- `splitSentencesWithPosition` from `server.js`. -/
def splitSentencesWithPosition (text : String) : List JsSentence :=
  splitSentencesAux text.data 0 0 text.data

/-- `computeSimilarityPercentage` from the client script:
`common(inputWords, referenceSet) / inputWords.length * 100`. -/
def computeSimilarityPercentage (inputWords referenceWords : List String) : ℚ :=
  if inputWords.length = 0 then 0
  else ((inputWords.countP (fun w => referenceWords.contains w) : ℚ) /
        (inputWords.length : ℚ)) * 100

/-- The best-match loop of the batch pipeline: document `i` is compared
against every other document `(name, words)` and the pair with the
largest percentage is kept, starting from `('', 0)`. -/
def bestMatchLoop (baseWords : List String) (i : ℕ) :
    ℕ → List (String × List String) → String × ℚ → String × ℚ
  | _, [], best => best
  | j, (name, ws) :: rest, best =>
    if j = i then bestMatchLoop baseWords i (j + 1) rest best
    else
      let pct := computeSimilarityPercentage baseWords ws
      bestMatchLoop baseWords i (j + 1) rest (if best.2 < pct then (name, pct) else best)

/-- `let best = { name: '', pct: 0 }; for (j ...) ...` for document `i`. -/
def bestMatchFor (baseWords : List String) (i : ℕ)
    (docs : List (String × List String)) : String × ℚ :=
  bestMatchLoop baseWords i 0 docs ("", 0)

/-- Counter for global word-boundary matches `\b<phrase>\b` of a phrase
that begins and ends with word characters (all phrase lists in the
source do): a match needs a non-word character (or the text edge) on
both sides; matches are counted left to right without overlap, as the
JS `g` flag does.  `prev` is the character before the current position. -/
def countWBAux (phrase : List Char) : Option Char → List Char → ℕ
  | _, [] => 0
  | prev, c :: rest =>
    if h : phrase ≠ [] ∧ phrase.isPrefixOf (c :: rest) ∧
        (match prev with | none => true | some p => !isWordChar p) = true ∧
        (match (c :: rest).drop phrase.length with
         | [] => true
         | d :: _ => !isWordChar d) = true then
      1 + countWBAux phrase phrase.getLast? ((c :: rest).drop phrase.length)
    else countWBAux phrase (some c) rest
termination_by _ l => l.length
decreasing_by
  · simp only [List.length_drop]
    have : 0 < phrase.length := List.length_pos.mpr h.1
    simp only [List.length_cons]
    omega
  · simp only [List.length_cons]
    omega

/-- Number of matches of `new RegExp('\\b' + phrase + '\\b', 'g')`. -/
def countWB (phrase text : String) : ℕ := countWBAux phrase.data none text.data

/-- The client `formalWords` list used by its document-level
`computeAiLikelihood`. -/
def clientFormalWords : List String :=
  ["moreover", "furthermore", "therefore", "however", "hence", "thus",
   "consequently", "in conclusion", "whereas", "additionally"]

/-- The client-side document-level `computeAiLikelihood` (weighted blend
of consistency, formal-phrase, repetition and punctuation signals,
scaled to 0–100).  `sqrtQ` stands for `Math.sqrt`; the result is clamped
to `[0,1]` before scaling, for any value of `sqrtQ`. -/
def computeAiLikelihoodClient (sqrtQ : ℚ → ℚ) (text : String)
    (sentences words : List String) : ℤ :=
  if words.length = 0 then 0
  else
    let sentenceLengths :=
      (sentences.map (fun s => (normalizeToWordsClient s).length)).filter (fun n => 0 < n)
    let avg := listMean sentenceLengths
    let sd := sqrtQ (sampleVarSq sentenceLengths)
    let consistency : ℚ := if 0 < avg then 1 - min 1 (sd / (avg + 1)) else 0
    let lowered := String.mk (text.data.map Char.toLower)
    let formalCount : ℕ := (clientFormalWords.map (fun fw => countWB fw lowered)).sum
    let formalScore : ℚ :=
      min 1 ((formalCount : ℚ) / max 1 ((sentenceLengths.length : ℚ) * (3 / 10)))
    let vocabRatio : ℚ := (words.dedup.length : ℚ) / max 1 (words.length : ℚ)
    let repetitionScore : ℚ := min 1 ((1 - vocabRatio) * (3 / 2))
    let punctuationScore : ℚ :=
      ((text.data.countP (fun c => c = '!' || c = '?' || c = '.')) : ℚ) /
        max 1 ((splitChar ' ' text.data).length : ℚ)
    let aiScore := consistency * (45 / 100) + formalScore * (3 / 10) +
      repetitionScore * (2 / 10) + punctuationScore * (5 / 100)
    jsRound (max 0 (min 1 aiScore) * 100)

/-- The client-side `labelAiScore` (thresholds 30/60, label `Mixed`). -/
def labelAiScoreClient (pct : ℤ) : String :=
  if pct ≤ 30 then "Human-written"
  else if pct ≤ 60 then "Mixed"
  else "Likely AI-generated"

/-- `.replace(/\n+/g, ' ')`: each maximal newline run becomes one space. -/
def replNlAux : Bool → List Char → List Char
  | _, [] => []
  | inRun, c :: rest =>
    if c = '\n' then
      if inRun then replNlAux true rest else ' ' :: replNlAux true rest
    else c :: replNlAux false rest

mutual
/-- Field scanner for `.split(/(?<=[.!?])\s+/)`: a whitespace character
directly after a sentence terminator opens a separator (the regex then
consumes the maximal whitespace run). -/
def splitLBGo (prevTerm : Bool) (acc : List Char) : List Char → List (List Char)
  | [] => [acc.reverse]
  | c :: rest =>
    if jsIsWs c && prevTerm then acc.reverse :: splitLBSep rest
    else splitLBGo (isTermB c) (c :: acc) rest

/-- Separator consumer for `.split(/(?<=[.!?])\s+/)`. -/
def splitLBSep : List Char → List (List Char)
  | [] => [[]]
  | c :: rest => if jsIsWs c then splitLBSep rest else splitLBGo (isTermB c) [c] rest
end

/-- `splitToSentences` from the client script: collapse newlines, split
after sentence terminators, trim each part and drop the empty ones. -/
def splitToSentences (text : String) : List String :=
  ((splitLBGo false [] (replNlAux false text.data)).map
      (fun l => String.mk (trimChars l))).filter (fun s => !s.isEmpty)

mutual
/-- Field scanner for `.split(/\n\n+/)`: a run of two or more newlines
separates paragraphs (a single newline stays inside its field). -/
def splitParasGo (acc : List Char) : List Char → List (List Char)
  | [] => [acc.reverse]
  | '\n' :: '\n' :: rest => acc.reverse :: splitParasSep rest
  | c :: rest => splitParasGo (c :: acc) rest

/-- Separator consumer for `.split(/\n\n+/)`. -/
def splitParasSep : List Char → List (List Char)
  | [] => [[]]
  | '\n' :: rest => splitParasSep rest
  | c :: rest => splitParasGo [c] rest
end

/-- `text.split(/\n\n+/).filter(p => p.trim().length > 0)`. -/
def splitParas (text : String) : List String :=
  ((splitParasGo [] text.data).map String.mk).filter
    (fun p => 0 < (trimChars p.data).length)

/-- `parseInt` on a digit run. -/
def digitsToNat (ds : List Char) : ℕ :=
  ds.foldl (fun n c => n * 10 + (c.toNat - 48)) 0

/-- The numbers captured by `/\((\d+)\)/g`: every parenthesised digit
run, scanned left to right. -/
def parenNums : List Char → List ℕ
  | [] => []
  | c :: rest =>
    if c = '(' then
      let ds := rest.takeWhile Char.isDigit
      let r2 := rest.dropWhile Char.isDigit
      if h : ds ≠ [] ∧ r2.headD ' ' = ')' then digitsToNat ds :: parenNums r2.tail
      else parenNums rest
    else parenNums rest
termination_by l => l.length
decreasing_by
  all_goals simp_wf
  have h1 := (List.dropWhile_sublist (l := rest) Char.isDigit).length_le
  omega

/-- The `fileData` object assembled in the client `filesContent` stage
and passed to `computeAiContentScore`.  The JS object carries no
`sentenceCount` or `charCount` property, so those reads yield
`undefined`; they are modelled as `Option ℕ` fields that the pipeline
sets to `none`. -/
structure FileData where
  text : String
  sentencesWithDelimiters : List String
  sentenceScores : List ℚ
  highlightedPercent : ℚ
  topRepeatedWords : String
  wordCount : ℕ
  sentenceCountOpt : Option ℕ
  charCountOpt : Option ℕ

/-- JS `x || 1` on a possibly-undefined number. -/
def jsOrOne : Option ℕ → ℕ
  | some n => if n = 0 then 1 else n
  | none => 1

/-- `computeStructureScore`: paragraph shape and sentence-length
variety.  With no sentences the JS variance is `NaN` and both `stdDev`
comparisons are false (score 40); here the division by zero gives 0 with
the same outcome.  `stdDev > 3` and `stdDev > 1.5` are rendered as
variance comparisons with 9 and 2.25. -/
def computeStructureScore (fd : FileData) : ℚ :=
  let sentences := fd.sentencesWithDelimiters
  let paragraphs := ((splitParasGo [] fd.text.data).map String.mk).filter
    (fun p => 0 < (trimChars p.data).length)
  let paragraphCount : ℕ := max 1 paragraphs.length
  let avgSentencesPerPara : ℚ := (sentences.length : ℚ) / (paragraphCount : ℚ)
  let paraStructureScore : ℚ :=
    if 2 ≤ avgSentencesPerPara ∧ avgSentencesPerPara ≤ 6 then 80
    else if 0 < avgSentencesPerPara then 50 else 20
  let sentenceLengths := sentences.map (fun s => (normalizeToWordsClient s).length)
  let avgLen : ℚ := (sentenceLengths.sum : ℚ) / (sentenceLengths.length : ℚ)
  let variance : ℚ :=
    (sentenceLengths.map (fun len => ((len : ℚ) - avgLen) ^ 2)).sum /
      (sentenceLengths.length : ℚ)
  let varietyScore : ℚ := if 9 < variance then 90 else if 9 / 4 < variance then 70 else 40
  paraStructureScore * (4 / 10) + varietyScore * (6 / 10)

/-- `computeClarityScore`: average words per sentence plus, with more
than one per-sentence score, their uniformity (`stdDev < 20` and
`< 40` rendered as variance `< 400` and `< 1600`). -/
def computeClarityScore (fd : FileData) : ℚ :=
  let sentences := fd.sentencesWithDelimiters
  let sentenceScores := fd.sentenceScores
  let words := normalizeToWordsClient fd.text
  let avgWordPerSentence : ℚ :=
    if 0 < sentences.length then (words.length : ℚ) / (sentences.length : ℚ) else 0
  let lengthScore : ℚ :=
    if 8 < avgWordPerSentence ∧ avgWordPerSentence < 30 then 80
    else if 5 < avgWordPerSentence then 60 else 30
  if 1 < sentenceScores.length then
    let scoresAvg : ℚ := sentenceScores.sum / (sentenceScores.length : ℚ)
    let scoresVariance : ℚ :=
      (sentenceScores.map (fun s => (s - scoresAvg) ^ 2)).sum / (sentenceScores.length : ℚ)
    let coherenceScore : ℚ :=
      if scoresVariance < 400 then 85 else if scoresVariance < 1600 then 70 else 50
    lengthScore * (4 / 10) + coherenceScore * (6 / 10)
  else lengthScore

/-- The formal-marker list of `computeLanguageQuality`. -/
def qualityFormalWords : List String :=
  ["moreover", "furthermore", "therefore", "however", "thus", "consequently",
   "additionally", "nevertheless", "indeed", "meanwhile"]

/-- `computeLanguageQuality`: vocabulary-diversity band, formal markers
scaled by the (undefined, hence `|| 1`) sentence count, punctuation
variety (`[!?;:—-]`). -/
def computeLanguageQuality (fd : FileData) : ℚ :=
  let words := normalizeToWordsClient fd.text
  let uniqueWords : ℕ := words.dedup.length
  let vocabDiversity : ℚ := ((uniqueWords : ℚ) / max 1 (words.length : ℚ)) * 100
  let diversityScore : ℚ :=
    if 35 < vocabDiversity ∧ vocabDiversity < 75 then 90
    else if 20 < vocabDiversity then 70 else 40
  let lowered := String.mk (fd.text.data.map Char.toLower)
  let formalCount : ℕ := (qualityFormalWords.map (fun fw => countWB fw lowered)).sum
  let formalScore : ℚ :=
    min 100 (((formalCount : ℚ) / max 1 ((jsOrOne fd.sentenceCountOpt : ℕ) : ℚ)) *
      30 * 100 / 30)
  let punctuation : ℕ := fd.text.data.countP
    (fun c => c = '!' || c = '?' || c = ';' || c = ':' || c.toNat = 8212 || c = '-')
  let punctScore : ℚ := min 100 (((punctuation : ℚ) / max 1 (words.length : ℚ)) * 300)
  diversityScore * (4 / 10) + formalScore * (3 / 10) + punctScore * (3 / 10)

/-- `computeContentDepth`: word-count tier, characters per word, and
sentence density; `fileData.sentenceCount || 0` and
`fileData.charCount || 0` read absent properties and give 0. -/
def computeContentDepth (fd : FileData) : ℚ :=
  let words : ℕ := fd.wordCount
  let sentences : ℕ := fd.sentenceCountOpt.getD 0
  let charCount : ℕ := fd.charCountOpt.getD 0
  let lengthScore : ℚ :=
    if words < 50 then 20 else if words < 150 then 40
    else if words < 300 then 60 else if words < 1000 then 80 else 95
  let avgCharPerWord : ℚ := if 0 < words then (charCount : ℚ) / (words : ℚ) else 0
  let densityScore : ℚ :=
    if 7 / 2 < avgCharPerWord ∧ avgCharPerWord < 7 then 85
    else if 3 < avgCharPerWord then 70 else 50
  let sentenceDepth : ℚ := min 100 (((sentences : ℚ) / max 1 (words : ℚ)) * 20 * 100)
  lengthScore * (1 / 2) + densityScore * (3 / 10) + sentenceDepth * (2 / 10)

/-- `computeOriginality`: repetition counts parsed back out of the
formatted `topRepeatedWords` string, and the unique-word ratio. -/
def computeOriginality (fd : FileData) : ℚ :=
  let words := normalizeToWordsClient fd.text
  let totalRepetition : ℕ := (parenNums fd.topRepeatedWords.data).sum
  let repetitionRate : ℚ := ((totalRepetition : ℚ) / max 1 (words.length : ℚ)) * 100
  let repetitionScore : ℚ := max 20 (100 - repetitionRate * 2)
  let uniqueRatioPct : ℚ := ((words.dedup.length : ℚ) / max 1 (words.length : ℚ)) * 100
  let uniquenessScore : ℚ :=
    if 40 < uniqueRatioPct then 90 else if 25 < uniqueRatioPct then 70 else 40
  repetitionScore * (1 / 2) + uniquenessScore * (1 / 2)

/-- The matches of `/[^.!?]+[.!?]/g`: a maximal run of non-terminators
followed by a single terminator; leading terminators and a trailing
unterminated run produce no match. -/
def sentencesRel : List Char → List (List Char)
  | [] => []
  | c :: rest =>
    if isTermB c then sentencesRel rest
    else
      let a := (c :: rest).takeWhile (fun x => !isTermB x)
      match hr : (c :: rest).dropWhile (fun x => !isTermB x) with
      | [] => []
      | t :: r2 => (a ++ [t]) :: sentencesRel r2
termination_by l => l.length
decreasing_by
  all_goals simp_wf
  have h1 := (List.dropWhile_sublist (l := c :: rest)
    (fun x => !isTermB x)).length_le
  rw [hr] at h1
  simp only [List.length_cons] at h1 ⊢
  omega

/-- Counter for `/\b[A-Z][a-z]+\b/g` matches: an uppercase letter
followed by a maximal nonempty lowercase run, with word boundaries on
both sides.  A shorter lowercase run can never satisfy the trailing
boundary (the next character would be a lowercase word character), so
greedy maximal runs are exactly the JS matches. -/
def properNounCount : Option Char → List Char → ℕ
  | _, [] => 0
  | prev, c :: rest =>
    let lowRun := rest.takeWhile (fun x => 97 ≤ x.toNat && x.toNat ≤ 122)
    let rest2 := rest.dropWhile (fun x => 97 ≤ x.toNat && x.toNat ≤ 122)
    if (match prev with | none => true | some p => !isWordChar p) &&
        (65 ≤ c.toNat && c.toNat ≤ 90) && !lowRun.isEmpty &&
        (match rest2 with | [] => true | d :: _ => !isWordChar d) then
      1 + properNounCount (some (lowRun.getLastD c)) rest2
    else properNounCount (some c) rest
termination_by _ l => l.length
decreasing_by
  all_goals simp_wf
  have h1 := (List.dropWhile_sublist (l := rest)
    (fun x => 97 ≤ x.toNat && x.toNat ≤ 122)).length_le
  omega

/-- The number of `/\d+/g` matches: maximal digit runs. -/
def digitRunCount : List Char → ℕ
  | [] => 0
  | c :: rest =>
    if c.isDigit then 1 + digitRunCount (rest.dropWhile Char.isDigit)
    else digitRunCount rest
termination_by l => l.length
decreasing_by
  all_goals simp_wf
  have h1 := (List.dropWhile_sublist (l := rest) Char.isDigit).length_le
  omega

/-- `computeRelevance`: proper-noun density per sentence (first match
discounted as the sentence opener), digit runs, question marks. -/
def computeRelevance (fd : FileData) : ℚ :=
  let text := fd.text
  let sentences := sentencesRel text.data
  let properNouns : ℕ :=
    (sentences.map (fun s => properNounCount none (trimChars s) - 1)).sum
  let properNounScore : ℚ := min 90 (max 40 ((properNouns : ℚ) * 3))
  let numbers : ℕ := digitRunCount text.data
  let numberScore : ℚ := min 85 ((numbers : ℚ) * 2)
  let questions : ℕ := text.data.countP (fun c => c = '?')
  let questionScore : ℚ := if 0 < questions then 70 else 50
  properNounScore * (4 / 10) + numberScore * (3 / 10) + questionScore * (3 / 10)

/-- The transition-word list of `computeConsistency` (note the source
lists `however` twice, so its hits count twice). -/
def transitionWords : List String :=
  ["moreover", "however", "therefore", "meanwhile", "furthermore",
   "additionally", "however", "thus", "hence", "consequently", "nevertheless"]

/-- The monotone-triple counter of `computeConsistency`; the JS loop
starts at `i = 1` where `lengths[i-2]` is `undefined` and both
comparisons are false, so only full triples count. -/
def patternChangesAux : List ℕ → ℕ
  | a :: b :: c :: rest =>
    (if (b < c ∧ a < b) ∨ (c < b ∧ b < a) then 1 else 0) +
      patternChangesAux (b :: c :: rest)
  | _ => 0

/-- `computeConsistency`: transition words, sentence-length flow and
paragraph count. -/
def computeConsistency (fd : FileData) : ℚ :=
  let sentences := fd.sentencesWithDelimiters
  let lowered := String.mk (fd.text.data.map Char.toLower)
  let transitionCount : ℕ := (transitionWords.map (fun tw => countWB tw lowered)).sum
  let transitionScore : ℚ :=
    if 0 < transitionCount then min 90 (50 + (transitionCount : ℚ) * 10) else 50
  let flowScore : ℚ :=
    if 3 < sentences.length then
      let lengths := sentences.map (fun s => (normalizeToWordsClient s).length)
      min 95 (50 + (patternChangesAux lengths : ℚ) * 8)
    else 50
  let paragraphs := ((splitParasGo [] fd.text.data).map String.mk).filter
    (fun p => 0 < (trimChars p.data).length)
  let coherenceScore : ℚ :=
    if 1 < paragraphs.length then min 90 (60 + (paragraphs.length : ℚ) * 3) else 50
  transitionScore * (4 / 10) + flowScore * (3 / 10) + coherenceScore * (3 / 10)

/-- `computeAiContentScore`: the content-quality mark, a weighted sum of
the seven sub-scores, clamped to `[0,100]` and rounded. -/
def computeAiContentScore (fd : FileData) : ℤ :=
  let words := normalizeToWordsClient fd.text
  if words.length = 0 then 0
  else
    let finalScore : ℚ :=
      computeStructureScore fd * (20 / 100) + computeClarityScore fd * (20 / 100) +
      computeLanguageQuality fd * (15 / 100) + computeContentDepth fd * (15 / 100) +
      computeOriginality fd * (10 / 100) + computeRelevance fd * (10 / 100) +
      computeConsistency fd * (10 / 100)
    jsRound (max 0 (min 100 finalScore))

/-- An element of a compiled subject pattern.  The patterns in
`detectSubjects` are written as single-quoted JS string literals, where
the intended `\b` escapes denote the backspace character U+0008 and
`\s` collapses to the letter `s`; after that unescaping the only regex
metacharacters left are one `.` (any character) and the two `+`
(one-or-more) from the AI/ML pattern. -/
inductive PatElem where
  | lit (c : Char)
  | anyChar
  | plus (c : Char)
  deriving Repr, DecidableEq

/-- A compiled pattern: a sequence of pattern elements. -/
abbrev Pat := List PatElem

/-- Literal pattern text. -/
def lits (s : String) : Pat := s.data.map PatElem.lit

/-- Match a pattern at the head of `l`, returning the remainder after
the match.  `plus` consumes its maximal run; in the patterns used the
following element never matches the repeated character, so greedy
matching without backtracking is exact. -/
def matchAt : Pat → List Char → Option (List Char)
  | [], l => some l
  | PatElem.lit _ :: _, [] => none
  | PatElem.lit c :: ps, x :: l => if x = c then matchAt ps l else none
  | PatElem.anyChar :: _, [] => none
  | PatElem.anyChar :: ps, _ :: l => matchAt ps l
  | PatElem.plus _ :: _, [] => none
  | PatElem.plus c :: ps, x :: l =>
    if x = c then matchAt ps (l.dropWhile (fun y => y = c)) else none

/-- Fuelled scan counting the global matches of a pattern, moving past
each match (as the JS `g` flag does) and one character forward after a
failure.  Every pattern in `subjectMap` consumes at least one character
per match, so `l.length + 1` fuel (as supplied by `countPat`) is never
exhausted. -/
def countPatFuel : ℕ → Pat → List Char → ℕ
  | 0, _, _ => 0
  | _ + 1, _, [] => 0
  | fuel + 1, p, c :: rest =>
    match matchAt p (c :: rest) with
    | some r => 1 + countPatFuel fuel p r
    | none => countPatFuel fuel p rest

/-- `(lowered.match(new RegExp(p, 'g')) || []).length`. -/
def countPat (p : Pat) (l : List Char) : ℕ := countPatFuel (l.length + 1) p l

/-- The subject keyword map of `detectSubjects`, with each pattern as
the character sequence its JS string literal actually denotes
(`"\x08"` is the backspace the `'\b'` escapes produce). -/
def subjectMap : List (String × List Pat) :=
  [("Programming",
    [lits "\x08function\x08", lits "\x08def\x08", lits "\x08class\x08",
     lits "\x08console" ++ [PatElem.anyChar] ++ lits "log\x08",
     lits "\x08System" ++ [PatElem.anyChar] ++ lits "out\x08",
     lits "#include", lits "\x08import\x08", lits "\x08public\x08",
     lits "\x08private\x08", lits "\x08var\x08", lits "\x08let\x08",
     lits "\x08const\x08"]),
   ("Data Structures",
    [lits "\x08stack\x08", lits "\x08queue\x08", lits "\x08linked list\x08",
     lits "\x08binary tree\x08", lits "\x08hash table\x08", lits "\x08graph\x08",
     lits "\x08dfs\x08", lits "\x08bfs\x08"]),
   ("Algorithms",
    [lits "\x08sort\x08", lits "\x08search\x08", lits "\x08dynamic programming\x08",
     lits "\x08greedy\x08", lits "\x08binary search\x08", lits "\x08merge sort\x08",
     lits "\x08quick sort\x08"]),
   ("Databases",
    [lits "\x08select\x08", lits "\x08insert\x08", lits "\x08update\x08",
     lits "\x08delete\x08", lits "\x08from\x08", lits "\x08where\x08",
     lits "\x08join\x08", lits "\x08sql\x08", lits "\x08nosql\x08"]),
   ("Operating Systems",
    [lits "\x08process\x08", lits "\x08thread\x08", lits "\x08scheduler\x08",
     lits "\x08kernel\x08", lits "\x08mutex\x08", lits "\x08deadlock\x08"]),
   ("Networks",
    [lits "\x08protocol\x08", lits "\x08tcp\x08", lits "\x08udp\x08",
     lits "\x08ip\x08", lits "\x08routing\x08", lits "\x08layer\x08"]),
   ("Software Engineering",
    [lits "\x08uml\x08", lits "\x08requirements\x08", lits "\x08testing\x08",
     lits "\x08version control\x08", lits "\x08agile\x08", lits "\x08waterfall\x08"]),
   ("Web Development",
    [lits "<html", lits "<body", lits "<script", lits "css",
     lits "\x08http\x08", lits "\x08html\x08", lits "\x08css\x08",
     lits "\x08javascript\x08"]),
   ("AI/ML",
    [lits "\x08machine learning\x08", lits "\x08neural network\x08",
     lits "\x08deep learning\x08", lits "\x08classification\x08",
     lits "\x08regression\x08", lits "\x08svm\x08",
     lits "\x08python\x08" ++ [PatElem.plus 's'] ++ lits "import" ++
       [PatElem.plus 's'] ++ lits "tensorflow"]),
   ("Cybersecurity",
    [lits "\x08encryption\x08", lits "\x08ssl\x08", lits "\x08tls\x08",
     lits "\x08attack\x08", lits "\x08vulnerability\x08", lits "\x08crypt\x08"]),
   ("Computer Architecture",
    [lits "\x08cache\x08", lits "\x08instruction\x08", lits "\x08pipeline\x08",
     lits "\x08register\x08", lits "\x08alu\x08"])]

/-- Stable insertion for the descending sort
`.sort((a, b) => b[1] - a[1])` (equal scores keep insertion order). -/
def insertByScore (x : String × ℕ) : List (String × ℕ) → List (String × ℕ)
  | [] => [x]
  | y :: ys => if y.2 ≤ x.2 then x :: y :: ys else y :: insertByScore x ys

/-- Stable descending sort on the hit counts. -/
def sortByScoreDesc : List (String × ℕ) → List (String × ℕ)
  | [] => []
  | x :: xs => insertByScore x (sortByScoreDesc xs)

/-- `detectSubjects` from the client script: hit counts per subject over
the lowercased text, zero-hit subjects dropped, descending by count,
top 3, with `['General']` when nothing matched. -/
def detectSubjects (text : String) : List String :=
  let lowered := String.mk (text.data.map Char.toLower)
  let scores := (subjectMap.map
    (fun sp => (sp.1, (sp.2.map (fun p => countPat p lowered.data)).sum))).filter
    (fun sc => 0 < sc.2)
  let sorted := (sortByScoreDesc scores).map (fun sc => sc.1)
  if sorted.isEmpty then ["General"] else sorted.take 3

/-- The matches of `/[^.!?]+[.!?]*\s*/g` (the client
`sentencesWithDelimiters`): a maximal nonempty run of non-terminators,
then the maximal run of terminators, then the maximal whitespace run;
positions where no match can start (leading terminators) are skipped. -/
def swd : List Char → List (List Char)
  | [] => []
  | c :: rest =>
    if isTermB c then swd rest
    else
      let a := (c :: rest).takeWhile (fun x => !isTermB x)
      let r1 := (c :: rest).dropWhile (fun x => !isTermB x)
      let b := r1.takeWhile isTermB
      let r2 := r1.dropWhile isTermB
      let cs := r2.takeWhile jsIsWs
      let r3 := r2.dropWhile jsIsWs
      (a ++ b ++ cs) :: swd r3
termination_by l => l.length
decreasing_by
  all_goals simp_wf
  have h1 : ((c :: rest).dropWhile (fun x => !isTermB x)).length ≤ rest.length := by
    have hc : (fun x => !isTermB x) c = true := by simp_all
    rw [List.dropWhile_cons, if_pos hc]
    exact (List.dropWhile_sublist _).length_le
  have h2 := (List.dropWhile_sublist
    (l := (c :: rest).dropWhile (fun x => !isTermB x)) isTermB).length_le
  have h3 := (List.dropWhile_sublist
    (l := ((c :: rest).dropWhile (fun x => !isTermB x)).dropWhile isTermB)
    jsIsWs).length_le
  omega

/-- `(text && text.match(/[^.!?]+[.!?]*\s*/g)) || doc.sentences || []`:
the empty text and the no-match case fall back to the document's
`splitToSentences` output. -/
def sentencesWithDelims (text : String) : List String :=
  if text = "" then splitToSentences text
  else
    let m := swd text.data
    if m.isEmpty then splitToSentences text else m.map String.mk

/-- A highlight candidate `{ i, count, len }`. -/
structure Cand where
  i : ℕ
  count : ℕ
  len : ℕ
  deriving Repr, DecidableEq

/-- Stable insertion for
`.sort((a, b) => b.count - a.count || a.len - b.len)`:
an element moves past `y` only when `y` strictly precedes it. -/
def insertCand (x : Cand) : List Cand → List Cand
  | [] => [x]
  | y :: ys =>
    if x.count < y.count ∨ (y.count = x.count ∧ y.len < x.len) then
      y :: insertCand x ys
    else x :: y :: ys

/-- Stable sort of the candidates, by count descending then length
ascending. -/
def sortCands : List Cand → List Cand
  | [] => []
  | x :: xs => insertCand x (sortCands xs)

/-- The greedy acceptance loop of the highlight selector: walk the
sorted candidates, accepting one when the accumulated character length
stays within the cap; returns the accumulated length (the JS `sum`) and
the accepted indices. -/
def selectHighlights (cands : List Cand) (cap : ℕ) : ℕ × List ℕ :=
  cands.foldl
    (fun acc c => if acc.1 + c.len ≤ cap then (acc.1 + c.len, acc.2 ++ [c.i]) else acc)
    (0, [])

/-- The highlight-selection stage of `filesContent` for one document:
`counts` are the per-sentence signal counts from
`analyzeSentenceSignals` (the selection is computed for any counts),
`totalLen` is `text.length || max(1, joined.length)` and the cap is
`Math.floor(totalLen * 0.30)`. -/
def highlightSelection (text : String) (counts : List ℕ) : ℕ × List ℕ :=
  let sents := sentencesWithDelims text
  let lens := sents.map (fun s => s.data.length)
  let totalLen : ℕ :=
    if text.data.length ≠ 0 then text.data.length
    else max 1 (String.join sents).data.length
  let cands := ((lens.zip counts).enum.map
    (fun ic => Cand.mk ic.1 ic.2.2 ic.2.1)).filter (fun c => 3 ≤ c.count)
  let cap := totalLen * 3 / 10
  selectHighlights (sortCands cands) cap

/-- The accepted highlighted character count
(`highlightedCharCount` in `filesContent`). -/
def highlightedCharCount (text : String) (counts : List ℕ) : ℕ :=
  (highlightSelection text counts).1

/-! ### Helper lemmas -/

theorem jsRound_nonneg {q : ℚ} (h : 0 ≤ q) : 0 ≤ jsRound q := by
  rw [jsRound, Int.le_floor]
  push_cast
  linarith

theorem jsRound_le {q : ℚ} {c : ℤ} (h : q ≤ c) : jsRound q ≤ c := by
  rw [jsRound]
  have h1 : ⌊q + 1 / 2⌋ ≤ ⌊(c : ℚ) + 1 / 2⌋ := Int.floor_le_floor (by linarith)
  have h2 : ⌊(c : ℚ) + 1 / 2⌋ = c + ⌊(1 : ℚ) / 2⌋ := Int.floor_int_add c _
  have h3 : ⌊(1 : ℚ) / 2⌋ = 0 := by norm_num
  omega

theorem consistencyPts_nonneg (lens : List ℕ) : 0 ≤ consistencyPts lens := by
  rw [consistencyPts]; split <;> norm_num

theorem variationPts_nonneg (lens : List ℕ) : 0 ≤ variationPts lens := by
  cases lens with
  | nil => simp [variationPts]
  | cons a l => simp only [variationPts]; split <;> norm_num

theorem vocabPts_nonneg (words : List String) : 0 ≤ vocabPts words := by
  rw [vocabPts]; split <;> norm_num

theorem starterPts_nonneg (sentences : List String) : 0 ≤ starterPts sentences := by
  cases sentences with
  | nil => simp [starterPts]
  | cons a l => simp only [starterPts]; split <;> norm_num

theorem phrasePts_nonneg (lower : String) : 0 ≤ phrasePts lower := by
  rw [phrasePts]; positivity

theorem errorPts_nonneg (text : String) : 0 ≤ errorPts text := by
  rw [errorPts]; split <;> norm_num

theorem repeatPts_nonneg (words : List String) : 0 ≤ repeatPts words := by
  rw [repeatPts]; split <;> norm_num

theorem refPts_nonneg (referenceText : String) (words : List String) :
    0 ≤ refPts referenceText words := by
  rw [refPts]
  split
  · norm_num
  · simp only []
    split
    · apply mul_nonneg _ (by norm_num)
      apply div_nonneg <;> positivity
    · norm_num

theorem longDocPts_nonneg (n : ℕ) (avgLen : ℚ) : 0 ≤ longDocPts n avgLen := by
  rw [longDocPts]; split <;> norm_num

theorem jsRound_clamp01 (a : ℚ) :
    0 ≤ jsRound (max 0 (min 1 a) * 100) ∧ jsRound (max 0 (min 1 a) * 100) ≤ 100 := by
  constructor
  · exact jsRound_nonneg (mul_nonneg (le_max_left 0 _) (by norm_num))
  · refine jsRound_le ?_
    have h1 : max 0 (min 1 a) ≤ 1 := max_le (by norm_num) (min_le_left _ _)
    have h2 : max 0 (min 1 a) * 100 ≤ 1 * 100 :=
      mul_le_mul_of_nonneg_right h1 (by norm_num)
    push_cast
    linarith

theorem jsRound_clamp100 (a : ℚ) :
    0 ≤ jsRound (max 0 (min 100 a)) ∧ jsRound (max 0 (min 100 a)) ≤ 100 := by
  constructor
  · exact jsRound_nonneg (le_max_left 0 _)
  · refine jsRound_le ?_
    have h1 : max 0 (min 100 a) ≤ 100 := max_le (by norm_num) (min_le_left _ _)
    push_cast
    linarith

/-- C2: for every input text — empty or adversarial included — the
document-level AI-likelihood (both the server scorer and the client
scorer, the latter for any square-root function) and the content-quality
mark are integers in `[0, 100]`. -/
theorem scoresWithinRange :
    (∀ (referenceText text : String) (sentences words : List String),
      0 ≤ computeAiLikelihood referenceText text sentences words ∧
      computeAiLikelihood referenceText text sentences words ≤ 100) ∧
    (∀ (sqrtQ : ℚ → ℚ) (text : String) (sentences words : List String),
      0 ≤ computeAiLikelihoodClient sqrtQ text sentences words ∧
      computeAiLikelihoodClient sqrtQ text sentences words ≤ 100) ∧
    (∀ fd : FileData,
      0 ≤ computeAiContentScore fd ∧ computeAiContentScore fd ≤ 100) := by
  refine ⟨fun referenceText text sentences words => ?_,
    fun sqrtQ text sentences words => ?_, fun fd => ?_⟩
  · rw [computeAiLikelihood]
    split
    · norm_num
    · constructor
      · refine le_min (jsRound_nonneg ?_) (by norm_num)
        have h1 := consistencyPts_nonneg (sentLens sentences)
        have h2 := variationPts_nonneg (sentLens sentences)
        have h3 := vocabPts_nonneg words
        have h4 := starterPts_nonneg sentences
        have h5 := phrasePts_nonneg (String.mk (text.data.map Char.toLower))
        have h6 := errorPts_nonneg text
        have h7 := repeatPts_nonneg words
        have h8 := refPts_nonneg referenceText words
        have h9 := longDocPts_nonneg sentences.length (listMean (sentLens sentences))
        linarith
      · exact min_le_right _ _
  · rw [computeAiLikelihoodClient]
    split
    · norm_num
    · exact jsRound_clamp01 _
  · rw [computeAiContentScore]
    dsimp only
    split
    · norm_num
    · exact jsRound_clamp100 _

/-- The concrete scenario text of the specification. -/
def c1Text : String :=
  "The cat sat on the mat. The cat sat on the mat. The cat sat on the mat."

/-- The sentence texts the server pipeline feeds to the scorer for the
scenario text. -/
def c1Sents : List String := (splitSentencesWithPosition c1Text).map (fun s => s.text)

/-- C1 counterexample: the scenario's vocabulary uniqueness ratio is not
6/18 — the text has only 5 distinct normalized words (`the`, `cat`,
`sat`, `on`, `mat`), so the ratio is 5/18. -/
theorem catMatRatioCounterexample :
    (normalizeToWords c1Text).dedup.length = 5 ∧
    uniqueRatio (normalizeToWords c1Text) ≠ 6 / 18 := by
  have hded : (normalizeToWords c1Text).dedup.length = 5 := by decide
  have hwlen : (normalizeToWords c1Text).length = 18 := by decide
  refine ⟨hded, ?_⟩
  rw [uniqueRatio, hded, hwlen]
  norm_num

/-- C1 (amended): for the scenario text with no reference corpus the
pipeline yields wordCount 18 and sentenceCount 3, and the document-level
AI-likelihood accumulates exactly +15 for the vocabulary uniqueness
ratio 5/18 < 0.6, +15 for sentence-length variation 0 < 8, +10 for the
sentence-starter ratio 1/3 < 0.5, +10 for zero punctuation
irregularities and +10 for the repeated-word flag, with the mean-length
(+20), formal-phrase, reference and long-document (+5) contributions all
zero, for a deterministic total of 60. -/
theorem catMatScenario :
    (normalizeToWords c1Text).length = 18 ∧
    c1Sents.length = 3 ∧
    uniqueRatio (normalizeToWords c1Text) = 5 / 18 ∧
    vocabPts (normalizeToWords c1Text) = 15 ∧
    variationPts (sentLens c1Sents) = 15 ∧
    starterPts c1Sents = 10 ∧
    errorPts c1Text = 10 ∧
    repeatPts (normalizeToWords c1Text) = 10 ∧
    consistencyPts (sentLens c1Sents) = 0 ∧
    phrasePts (String.mk (c1Text.data.map Char.toLower)) = 0 ∧
    refPts "" (normalizeToWords c1Text) = 0 ∧
    longDocPts c1Sents.length (listMean (sentLens c1Sents)) = 0 ∧
    computeAiLikelihood "" c1Text c1Sents (normalizeToWords c1Text) = 60 := by
  have hsl : sentLens c1Sents = [6, 6, 6] := by decide
  have hlen : c1Sents.length = 3 := by decide
  have hwlen : (normalizeToWords c1Text).length = 18 := by decide
  have hded : (normalizeToWords c1Text).dedup.length = 5 := by decide
  have hur : uniqueRatio (normalizeToWords c1Text) = 5 / 18 := by
    rw [uniqueRatio, hded, hwlen]
    norm_num
  have hc : consistencyPts [6, 6, 6] = 0 := by norm_num [consistencyPts, listMean]
  have hv : variationPts [6, 6, 6] = 15 := by
    have h1 : ([6, 6, 6] : List ℕ).max? = some 6 := by decide
    have h2 : ([6, 6, 6] : List ℕ).min? = some 6 := by decide
    simp only [variationPts, h1, h2]
    norm_num
  have hvp : vocabPts (normalizeToWords c1Text) = 15 := by
    rw [vocabPts, if_pos]
    rw [hur]
    norm_num
  have hsp : starterPts c1Sents = 10 := by
    have hcs : c1Sents = ["The cat sat on the mat.", "The cat sat on the mat.",
      "The cat sat on the mat."] := by decide
    have h1 : ((["The cat sat on the mat.", "The cat sat on the mat.",
      "The cat sat on the mat."] : List String).map starterOf).dedup.length = 1 := by
      decide
    rw [hcs]
    simp only [starterPts, h1]
    norm_num
  have hpp : phrasePts (String.mk (c1Text.data.map Char.toLower)) = 0 := by
    have h1 : phraseHits (String.mk (c1Text.data.map Char.toLower)) = 0 := by decide
    simp [phrasePts, h1]
  have hep : errorPts c1Text = 10 := by
    have h1 : countErrs c1Text = 0 := by decide
    simp [errorPts, h1]
  have hrp : repeatPts (normalizeToWords c1Text) = 10 := by
    have h1 : repeatedCount (normalizeToWords c1Text) = 1 := by decide
    rw [repeatPts, h1, hwlen, if_pos]
    norm_num
  have hrf : refPts "" (normalizeToWords c1Text) = 0 := by simp [refPts]
  have hld : longDocPts 3 (listMean [6, 6, 6]) = 0 := by norm_num [longDocPts]
  refine ⟨hwlen, hlen, hur, hvp, ?_, hsp, hep, hrp, ?_, hpp, hrf, ?_, ?_⟩
  · rw [hsl]; exact hv
  · rw [hsl]; exact hc
  · rw [hsl, hlen]; exact hld
  · rw [computeAiLikelihood, if_neg (by rw [hwlen]; omega)]
    dsimp only
    rw [hsl, hlen, hc, hv, hvp, hsp, hpp, hep, hrp, hrf, hld]
    norm_num [jsRound]

/-- C4: in `detectSubjects` every word-boundary keyword pattern is
written as a single-quoted JS string in which `\b` denotes the
backspace character U+0008, so such patterns can only match text that
contains literal backspaces; on the SQL query every subject scores 0
hits and the classifier returns `["General"]` — "Databases" is absent. -/
theorem sqlQueryYieldsGeneral :
    detectSubjects "SELECT * FROM users WHERE id=1" = ["General"] ∧
    "Databases" ∉ detectSubjects "SELECT * FROM users WHERE id=1" := by
  have h : detectSubjects "SELECT * FROM users WHERE id=1" = ["General"] := by decide
  refine ⟨h, ?_⟩
  rw [h]
  decide

/-- C7 counterexample: two documents with identical word sequences do
not always have similarity 100 — for two empty documents the word
sequences are identical (both empty) and the similarity is 0. -/
theorem similarityEmptyCounterexample :
    computeSimilarityPercentage (normalizeToWords "") (normalizeToWords "") = 0 ∧
    ((0 : ℚ) ≠ 100) := by
  constructor
  · have h : normalizeToWords "" = [] := by decide
    rw [h]
    rfl
  · norm_num

/-- C7 (amended): similarity is `common / len * 100`; two documents with
identical *nonempty* word sequences have similarity 100 (identical empty
ones give 0); disjoint vocabularies give similarity 0; and a document's
best match defaults to the empty name with percentage 0 when no other
document exists in the batch. -/
theorem similarityProperties :
    (∀ ws : List String, ws ≠ [] → computeSimilarityPercentage ws ws = 100) ∧
    (∀ a b : List String, (∀ w ∈ a, w ∉ b) → computeSimilarityPercentage a b = 0) ∧
    (∀ d : String × List String, bestMatchFor d.2 0 [d] = ("", 0)) := by
  refine ⟨fun ws h => ?_, fun a b h => ?_, fun d => ?_⟩
  · rw [computeSimilarityPercentage, if_neg (by simpa using h)]
    have hc : ws.countP (fun w => ws.contains w) = ws.length := by
      rw [List.countP_eq_length]
      intro x hx
      simpa using hx
    rw [hc]
    have hl : (ws.length : ℚ) ≠ 0 := by simpa using h
    field_simp
  · rw [computeSimilarityPercentage]
    split
    · rfl
    · have hc : a.countP (fun w => b.contains w) = 0 := by
        rw [List.countP_eq_zero]
        intro w hw
        simpa using h w hw
      rw [hc]
      norm_num
  · rfl

/-- Witness for the amended C7 at concrete inputs. -/
theorem similarityProperties_witness :
    computeSimilarityPercentage ["the"] ["the"] = 100 ∧
    computeSimilarityPercentage ["alpha"] ["beta"] = 0 ∧
    bestMatchFor ["x"] 0 [("essay", ["x"])] = ("", 0) :=
  ⟨similarityProperties.1 ["the"] (by decide),
   similarityProperties.2.1 ["alpha"] ["beta"] (by decide),
   similarityProperties.2.2 ("essay", ["x"])⟩

/-- C8 counterexample: the client-side label function maps 32 to
"Mixed", although 32 < 35 (the claim says every p < 35 is labelled
"Human-written", and its label for the middle band is
"Mixed (AI + Human)"). -/
theorem labelClientAt32 :
    labelAiScoreClient 32 = "Mixed" ∧ (32 : ℤ) < 35 ∧
    ("Mixed" : String) ≠ "Human-written" := by
  refine ⟨by decide, by decide, by decide⟩

/-- C8 (amended): the server-side `labelAiScore` maps p to
"Human-written" exactly when p < 35, to "Mixed (AI + Human)" exactly
when 35 ≤ p < 70 and to "Likely AI-generated" exactly when p ≥ 70; the
client-side `labelAiScore` instead uses the thresholds p ≤ 30 and
p ≤ 60 with middle label "Mixed". -/
theorem labelThresholds :
    ∀ p : ℤ,
      (labelAiScore p = "Human-written" ↔ p < 35) ∧
      (labelAiScore p = "Mixed (AI + Human)" ↔ 35 ≤ p ∧ p < 70) ∧
      (labelAiScore p = "Likely AI-generated" ↔ 70 ≤ p) ∧
      (labelAiScoreClient p = "Human-written" ↔ p ≤ 30) ∧
      (labelAiScoreClient p = "Mixed" ↔ 30 < p ∧ p ≤ 60) ∧
      (labelAiScoreClient p = "Likely AI-generated" ↔ 60 < p) := by
  intro p
  have d1 : ("Human-written" : String) ≠ "Mixed (AI + Human)" := by decide
  have d2 : ("Human-written" : String) ≠ "Likely AI-generated" := by decide
  have d3 : ("Mixed (AI + Human)" : String) ≠ "Likely AI-generated" := by decide
  have d4 : ("Human-written" : String) ≠ "Mixed" := by decide
  have d5 : ("Mixed" : String) ≠ "Likely AI-generated" := by decide
  unfold labelAiScore labelAiScoreClient
  split_ifs <;> refine ⟨?_, ?_, ?_, ?_, ?_, ?_⟩ <;> simp_all <;> omega

/-- C10: when the scorer is called on a single-sentence list — as the
per-sentence scoring in `analyzeSentences` does — the starter-diversity
points and the long-document points are always 0 (a single sentence has
starter ratio 1 and sentence count 1), so the likelihood is the clamp of
the remaining contributions alone. -/
theorem singleSentenceScore :
    ∀ (referenceText text s : String) (words : List String) (avgLen : ℚ),
      starterPts [s] = 0 ∧
      longDocPts [s].length avgLen = 0 ∧
      computeAiLikelihood referenceText text [s] words =
        (if words.length = 0 then 0
         else
           min (jsRound (consistencyPts (sentLens [s]) + variationPts (sentLens [s]) +
             vocabPts words + phrasePts (String.mk (text.data.map Char.toLower)) +
             errorPts text + repeatPts words + refPts referenceText words)) 100) := by
  intro referenceText text s words avgLen
  have hs : starterPts [s] = 0 := by
    have h1 : (([s] : List String).map starterOf).dedup.length = 1 := by simp
    simp only [starterPts, h1]
    norm_num
  have hl : ∀ a : ℚ, longDocPts ([s] : List String).length a = 0 := by
    intro a
    simp [longDocPts]
  refine ⟨hs, hl avgLen, ?_⟩
  by_cases hw : words.length = 0
  · rw [computeAiLikelihood, if_pos hw, if_pos hw]
  · rw [computeAiLikelihood, if_neg hw, if_neg hw]
    dsimp only
    rw [hs, hl (listMean (sentLens [s]))]
    have hsum : consistencyPts (sentLens [s]) + variationPts (sentLens [s]) +
        vocabPts words + 0 + phrasePts (String.mk (text.data.map Char.toLower)) +
        errorPts text + repeatPts words + refPts referenceText words + 0 =
        consistencyPts (sentLens [s]) + variationPts (sentLens [s]) +
        vocabPts words + phrasePts (String.mk (text.data.map Char.toLower)) +
        errorPts text + repeatPts words + refPts referenceText words := by ring
    rw [hsum]

theorem foldl_accept_le (cap : ℕ) :
    ∀ (cands : List Cand) (acc : ℕ × List ℕ), acc.1 ≤ cap →
      (cands.foldl
        (fun acc c => if acc.1 + c.len ≤ cap then (acc.1 + c.len, acc.2 ++ [c.i]) else acc)
        acc).1 ≤ cap := by
  intro cands
  induction cands with
  | nil => intro acc h; exact h
  | cons c cs ih =>
    intro acc h
    rw [List.foldl_cons]
    by_cases hc : acc.1 + c.len ≤ cap
    · rw [if_pos hc]
      exact ih _ hc
    · rw [if_neg hc]
      exact ih _ h

theorem selectHighlights_le (cands : List Cand) (cap : ℕ) :
    (selectHighlights cands cap).1 ≤ cap :=
  foldl_accept_le cap cands (0, []) (Nat.zero_le _)

theorem natDivTen_le_ceil (n : ℕ) :
    n * 3 / 10 ≤ Nat.ceil ((3 / 10 : ℚ) * n) := by
  have h1 : ((n * 3 / 10 : ℕ) : ℚ) ≤ ((n * 3 : ℕ) : ℚ) / ((10 : ℕ) : ℚ) :=
    Nat.cast_div_le
  have h2 : ((n * 3 : ℕ) : ℚ) / ((10 : ℕ) : ℚ) = (3 / 10 : ℚ) * n := by
    push_cast
    ring
  have h3 : (3 / 10 : ℚ) * n ≤ (Nat.ceil ((3 / 10 : ℚ) * n) : ℚ) := Nat.le_ceil _
  have h4 : ((n * 3 / 10 : ℕ) : ℚ) ≤ (Nat.ceil ((3 / 10 : ℚ) * n) : ℚ) := by
    rw [h2] at h1
    exact le_trans h1 h3
  exact_mod_cast h4

/-- C3: for every document and every vector of per-sentence signal
counts, the accepted highlighted character count never exceeds
`ceil(0.30 * documentLength)` — the greedy loop only accepts a candidate
while the accumulated length stays within the floor-cap, which is itself
at most the ceiling. -/
theorem highlightCoverageCap :
    ∀ (text : String) (counts : List ℕ),
      highlightedCharCount text counts ≤ Nat.ceil ((3 / 10 : ℚ) * text.data.length) := by
  intro text counts
  rw [highlightedCharCount, highlightSelection]
  by_cases ht : text.data.length ≠ 0
  · rw [if_pos ht]
    exact le_trans (selectHighlights_le _ _) (natDivTen_le_ceil _)
  · rw [if_neg ht]
    push_neg at ht
    have htext : text = "" := by
      cases text with
      | mk d => cases d with
        | nil => rfl
        | cons a l => simp at ht
    have hsents : sentencesWithDelims text = [] := by
      rw [htext]
      decide
    rw [hsents]
    have hcap : max 1 (String.join ([] : List String)).data.length * 3 / 10 = 0 := by
      decide
    rw [hcap, ht]
    refine le_trans (selectHighlights_le _ _) ?_
    norm_num

theorem toLower_of_ws {c : Char} (h : jsIsWs c = true) : Char.toLower c = c := by
  simp only [jsIsWs, Bool.or_eq_true, decide_eq_true_eq, Bool.and_eq_true] at h
  rw [Char.toLower, if_neg (by omega)]

theorem ws_not_term {c : Char} (h : jsIsWs c = true) : isTermB c = false := by
  simp only [jsIsWs, Bool.or_eq_true, decide_eq_true_eq, Bool.and_eq_true] at h
  simp only [isTermB, Bool.or_eq_false_iff, decide_eq_false_iff_not]
  omega

theorem collapseWsAux_mem {c : Char} :
    ∀ (b : Bool) (l : List Char),
      c ∈ collapseWsAux b l → c = ' ' ∨ (c ∈ l ∧ jsIsWs c = false) := by
  intro b l
  induction l generalizing b with
  | nil => intro h; simp [collapseWsAux] at h
  | cons a rest ih =>
    intro h
    rw [collapseWsAux] at h
    by_cases ha : jsIsWs a = true
    · rw [if_pos ha] at h
      rcases hb : b with _ | _
      · rw [hb] at h
        rcases List.mem_cons.mp h with h1 | h1
        · exact Or.inl h1
        · rcases ih true h1 with h2 | h2
          · exact Or.inl h2
          · exact Or.inr ⟨List.mem_cons_of_mem _ h2.1, h2.2⟩
      · rw [hb] at h
        rcases ih true h with h2 | h2
        · exact Or.inl h2
        · exact Or.inr ⟨List.mem_cons_of_mem _ h2.1, h2.2⟩
    · rw [if_neg ha] at h
      rcases List.mem_cons.mp h with h1 | h1
      · refine Or.inr ⟨h1 ▸ List.mem_cons_self _ _, ?_⟩
        subst h1
        cases hws : jsIsWs c
        · rfl
        · exact absurd hws ha
      · rcases ih false h1 with h2 | h2
        · exact Or.inl h2
        · exact Or.inr ⟨List.mem_cons_of_mem _ h2.1, h2.2⟩

theorem trimChars_of_allWs {l : List Char} (h : ∀ c ∈ l, jsIsWs c = true) :
    trimChars l = [] := by
  rw [trimChars]
  rw [List.dropWhile_eq_nil_iff.mpr h]
  rfl

theorem nwList_of_allWs (isP : Char → Bool) (l : List Char)
    (h : ∀ c ∈ l, jsIsWs c = true) : nwList isP l = [] := by
  rw [nwList]
  have h1 : ∀ c ∈ (l.map Char.toLower).filter (fun c => !(isP c)), jsIsWs c = true := by
    intro c hc
    have hc2 := List.mem_of_mem_filter hc
    rcases List.mem_map.mp hc2 with ⟨a, ha, rfl⟩
    rw [toLower_of_ws (h a ha)]
    exact h a ha
  have h2 : ∀ c ∈ collapseWs ((l.map Char.toLower).filter (fun c => !(isP c))),
      jsIsWs c = true := by
    intro c hc
    rcases collapseWsAux_mem false _ hc with h3 | h3
    · rw [h3]; decide
    · exact h1 c h3.1
  rw [trimChars_of_allWs h2]
  decide

theorem splitSentencesAux_of_allWs (full : List Char)
    (hfull : ∀ c ∈ full, jsIsWs c = true) :
    ∀ (rem : List Char) (lc pos : ℕ), (∀ c ∈ rem, jsIsWs c = true) →
      splitSentencesAux full lc pos rem = [] := by
  intro rem
  induction rem with
  | nil =>
    intro lc pos _
    have hsub : ∀ c ∈ (full.take full.length).drop lc, jsIsWs c = true :=
      fun c hc => hfull c (List.take_subset _ _ (List.drop_subset _ _ hc))
    rw [splitSentencesAux]
    split
    · have h4 : trimChars (List.drop lc full) = [] :=
        trimChars_of_allWs (fun c hc => hfull c (List.drop_subset lc full hc))
      simp [List.take_length, h4]
    · rfl
  | cons c rest ih =>
    intro lc pos h
    have hc : isTermB c = false := ws_not_term (h c (List.mem_cons_self _ _))
    rw [splitSentencesAux]
    rw [if_neg (by simp [hc])]
    exact ih lc (pos + 1) (fun d hd => h d (List.mem_cons_of_mem _ hd))

theorem splitSentencesWithPosition_of_allWs (text : String)
    (h : ∀ c ∈ text.data, jsIsWs c = true) :
    splitSentencesWithPosition text = [] := by
  rw [splitSentencesWithPosition]
  exact splitSentencesAux_of_allWs text.data h text.data 0 0 h

theorem splitLBGo_of_allWs :
    ∀ (l : List Char) (acc : List Char), (∀ c ∈ l, jsIsWs c = true) →
      splitLBGo false acc l = [acc.reverse ++ l] := by
  intro l
  induction l with
  | nil => intro acc _; simp [splitLBGo]
  | cons c rest ih =>
    intro acc h
    have hc : isTermB c = false := ws_not_term (h c (List.mem_cons_self _ _))
    rw [splitLBGo]
    rw [if_neg (by simp)]
    rw [hc, ih (c :: acc) (fun d hd => h d (List.mem_cons_of_mem _ hd))]
    simp

theorem replNlAux_mem {c : Char} :
    ∀ (b : Bool) (l : List Char), c ∈ replNlAux b l → c = ' ' ∨ c ∈ l := by
  intro b l
  induction l generalizing b with
  | nil => intro h; simp [replNlAux] at h
  | cons a rest ih =>
    intro h
    rw [replNlAux] at h
    by_cases ha : a = '\n'
    · rw [if_pos ha] at h
      rcases hb : b with _ | _
      · rw [hb] at h
        rcases List.mem_cons.mp h with h1 | h1
        · exact Or.inl h1
        · rcases ih true h1 with h2 | h2
          · exact Or.inl h2
          · exact Or.inr (List.mem_cons_of_mem _ h2)
      · rw [hb] at h
        rcases ih true h with h2 | h2
        · exact Or.inl h2
        · exact Or.inr (List.mem_cons_of_mem _ h2)
    · rw [if_neg ha] at h
      rcases List.mem_cons.mp h with h1 | h1
      · exact Or.inr (h1 ▸ List.mem_cons_self _ _)
      · rcases ih false h1 with h2 | h2
        · exact Or.inl h2
        · exact Or.inr (List.mem_cons_of_mem _ h2)

theorem splitToSentences_of_allWs (text : String)
    (h : ∀ c ∈ text.data, jsIsWs c = true) : splitToSentences text = [] := by
  rw [splitToSentences]
  have h2 : ∀ c ∈ replNlAux false text.data, jsIsWs c = true := by
    intro c hc
    rcases replNlAux_mem false text.data hc with h3 | h3
    · rw [h3]; decide
    · exact h c h3
  rw [splitLBGo_of_allWs _ [] h2]
  simp [trimChars_of_allWs h2]
  decide

theorem matchAt_lit_mem :
    ∀ (ps : Pat) (l r : List Char) (ch : Char),
      matchAt ps l = some r → PatElem.lit ch ∈ ps → ch ∈ l := by
  intro ps
  induction ps with
  | nil => intro l r ch _ hch; simp at hch
  | cons e ps ih =>
    intro l r ch hm hch
    cases e with
    | lit c =>
      cases l with
      | nil => rw [matchAt] at hm; cases hm
      | cons x xs =>
        rw [matchAt] at hm
        by_cases hx : x = c
        · rw [if_pos hx] at hm
          rcases List.mem_cons.mp hch with h1 | h1
          · cases h1
            exact hx ▸ List.mem_cons_self _ _
          · exact List.mem_cons_of_mem _ (ih xs r ch hm h1)
        · rw [if_neg hx] at hm; cases hm
    | anyChar =>
      cases l with
      | nil => rw [matchAt] at hm; cases hm
      | cons x xs =>
        rw [matchAt] at hm
        rcases List.mem_cons.mp hch with h1 | h1
        · cases h1
        · exact List.mem_cons_of_mem _ (ih xs r ch hm h1)
    | plus c =>
      cases l with
      | nil => rw [matchAt] at hm; cases hm
      | cons x xs =>
        rw [matchAt] at hm
        by_cases hx : x = c
        · rw [if_pos hx] at hm
          rcases List.mem_cons.mp hch with h1 | h1
          · cases h1
          · exact List.mem_cons_of_mem _
              ((List.dropWhile_sublist _).subset (ih _ r ch hm h1))
        · rw [if_neg hx] at hm; cases hm

theorem countPatFuel_eq_zero :
    ∀ (fuel : ℕ) (p : Pat) (l : List Char) (ch : Char),
      PatElem.lit ch ∈ p → ch ∉ l → countPatFuel fuel p l = 0 := by
  intro fuel
  induction fuel with
  | zero => intro p l ch _ _; rfl
  | succ n ih =>
    intro p l ch hp hl
    cases l with
    | nil => rfl
    | cons c rest =>
      rw [countPatFuel]
      cases hm : matchAt p (c :: rest) with
      | some r =>
        exact absurd (matchAt_lit_mem p (c :: rest) r ch hm hp) hl
      | none =>
        exact ih p rest ch hp (fun hc => hl (List.mem_cons_of_mem _ hc))

theorem countPat_eq_zero (p : Pat) (l : List Char) (ch : Char)
    (hp : PatElem.lit ch ∈ p) (hl : ch ∉ l) : countPat p l = 0 :=
  countPatFuel_eq_zero _ p l ch hp hl

theorem subjectMap_patterns_have_solid_lit :
    subjectMap.all (fun sp => sp.2.all (fun p => p.any
      (fun e => match e with | PatElem.lit ch => !jsIsWs ch | _ => false))) = true := by
  decide

theorem detectSubjects_of_allWs (text : String)
    (h : ∀ c ∈ text.data, jsIsWs c = true) : detectSubjects text = ["General"] := by
  rw [detectSubjects]
  have hlow : ∀ c ∈ (String.mk (text.data.map Char.toLower)).data, jsIsWs c = true := by
    intro c hc
    rcases List.mem_map.mp hc with ⟨a, ha, rfl⟩
    rw [toLower_of_ws (h a ha)]
    exact h a ha
  have hz : ∀ sp ∈ subjectMap, ∀ p ∈ sp.2,
      countPat p (String.mk (text.data.map Char.toLower)).data = 0 := by
    intro sp hsp p hp
    have hany := List.all_eq_true.mp
      (List.all_eq_true.mp subjectMap_patterns_have_solid_lit sp hsp) p hp
    rcases List.any_eq_true.mp hany with ⟨e, he, hch⟩
    cases e with
    | lit ch =>
      refine countPat_eq_zero p _ ch he (fun hmem => ?_)
      have := hlow ch hmem
      simp_all
    | anyChar => cases hch
    | plus c => cases hch
  have hfilter : ((subjectMap.map (fun sp => (sp.1,
      (sp.2.map (fun p => countPat p (String.mk (text.data.map Char.toLower)).data)).sum))).filter
      (fun sc => 0 < sc.2)) = [] := by
    rw [List.filter_eq_nil]
    intro x hx
    rcases List.mem_map.mp hx with ⟨sp, hsp, rfl⟩
    have hsum : (sp.2.map
        (fun p => countPat p (String.mk (text.data.map Char.toLower)).data)).sum = 0 := by
      apply List.sum_eq_zero
      intro y hy
      rcases List.mem_map.mp hy with ⟨p, hp, rfl⟩
      exact hz sp hsp p hp
    simp [hsum]
  rw [hfilter]
  rfl

/-- C5: for empty or whitespace-only input text every extractor and
composer returns its zero/neutral value — no words, no sentences (either
splitter), AI-likelihood 0 (server and client scorers), content mark 0,
and subjects `["General"]`; all functions are total, so nothing throws
or divides by zero. -/
theorem emptyInputNeutral :
    ∀ text : String, (∀ c ∈ text.data, jsIsWs c = true) →
      normalizeToWords text = [] ∧
      normalizeToWordsClient text = [] ∧
      splitSentencesWithPosition text = [] ∧
      splitToSentences text = [] ∧
      (∀ (referenceText : String) (sentences : List String),
        computeAiLikelihood referenceText text sentences (normalizeToWords text) = 0) ∧
      (∀ (sqrtQ : ℚ → ℚ) (sentences : List String),
        computeAiLikelihoodClient sqrtQ text sentences (normalizeToWordsClient text) = 0) ∧
      (∀ (sd : List String) (ss : List ℚ) (hp : ℚ) (trw : String) (wc : ℕ)
          (sc cc : Option ℕ),
        computeAiContentScore ⟨text, sd, ss, hp, trw, wc, sc, cc⟩ = 0) ∧
      detectSubjects text = ["General"] := by
  intro text h
  have hnw : normalizeToWords text = [] := by
    rw [normalizeToWords, nwList_of_allWs _ _ h]
    rfl
  have hnc : normalizeToWordsClient text = [] := by
    rw [normalizeToWordsClient, nwList_of_allWs _ _ h]
    rfl
  refine ⟨hnw, hnc, splitSentencesWithPosition_of_allWs text h,
    splitToSentences_of_allWs text h, ?_, ?_, ?_, detectSubjects_of_allWs text h⟩
  · intro referenceText sentences
    rw [computeAiLikelihood, hnw]
    rfl
  · intro sqrtQ sentences
    rw [computeAiLikelihoodClient, hnc]
    rfl
  · intro sd ss hp trw wc sc cc
    rw [computeAiContentScore]
    have : normalizeToWordsClient (FileData.mk text sd ss hp trw wc sc cc).text = [] := hnc
    rw [this]
    rfl

/-- Witness for C5 at the concrete whitespace-only input `" \t "`. -/
theorem emptyInputNeutral_witness :
    normalizeToWords " \t " = [] ∧
    normalizeToWordsClient " \t " = [] ∧
    splitSentencesWithPosition " \t " = [] ∧
    splitToSentences " \t " = [] ∧
    computeAiLikelihood "corpus" " \t " ["a."] (normalizeToWords " \t ") = 0 ∧
    computeAiLikelihoodClient (fun q => q) " \t " ["a."] (normalizeToWordsClient " \t ") = 0 ∧
    computeAiContentScore ⟨" \t ", [], [], 0, "", 0, none, none⟩ = 0 ∧
    detectSubjects " \t " = ["General"] := by
  have h := emptyInputNeutral " \t " (by decide)
  exact ⟨h.1, h.2.1, h.2.2.1, h.2.2.2.1, h.2.2.2.2.1 "corpus" ["a."],
    h.2.2.2.2.2.1 (fun q => q) ["a."], h.2.2.2.2.2.2.1 [] [] 0 "" 0 none none,
    h.2.2.2.2.2.2.2⟩

theorem exists_nonWs_of_trimChars_ne_nil {l : List Char} (h : trimChars l ≠ []) :
    ∃ c ∈ l, jsIsWs c = false := by
  by_contra hcon
  push_neg at hcon
  exact h (trimChars_of_allWs (fun c hc => by
    have := hcon c hc
    revert this
    cases jsIsWs c <;> simp))

theorem splitSentencesAux_invariants (full : List Char) :
    ∀ (rem : List Char) (lc pos : ℕ),
      lc ≤ pos → pos + rem.length = full.length →
      (∀ x ∈ splitSentencesAux full lc pos rem,
          lc ≤ x.start ∧ x.start < x.stop ∧ x.stop ≤ full.length ∧
          x.text = String.mk (trimChars ((full.take x.stop).drop x.start)) ∧
          x.text ≠ "") ∧
      (splitSentencesAux full lc pos rem).Pairwise (fun a b => a.start < b.start) := by
  intro rem
  induction rem with
  | nil =>
    intro lc pos hlc hlen
    simp only [List.length_nil, Nat.add_zero] at hlen
    simp only [splitSentencesAux]
    by_cases h1 : lc < full.length
    · rw [if_pos h1]
      by_cases h2 : (trimChars ((full.take full.length).drop lc)).isEmpty = true
      · rw [if_pos h2]
        exact ⟨by simp, List.Pairwise.nil⟩
      · rw [if_neg h2]
        have h3 : trimChars ((full.take full.length).drop lc) ≠ [] := by
          intro he
          apply h2
          rw [he]
          rfl
        constructor
        · intro x hx
          rcases List.mem_singleton.mp hx with rfl
          exact ⟨le_refl _, h1, le_refl _, rfl,
            fun hmk => h3 (congrArg String.data hmk)⟩
        · exact List.pairwise_singleton _ _
    · rw [if_neg h1]
      exact ⟨by simp, List.Pairwise.nil⟩
  | cons c rest ih =>
    intro lc pos hlc hlen
    simp only [List.length_cons] at hlen
    simp only [splitSentencesAux]
    by_cases hcond : (isTermB c && !(rest.headD ' ' |> isTermB)) = true
    · rw [if_pos hcond]
      have hstep : pos + 1 + rest.length = full.length := by omega
      rcases ih (pos + 1) (pos + 1) (le_refl _) hstep with ⟨ihMem, ihPw⟩
      have hstop : pos + 1 ≤ full.length := by omega
      by_cases h2 : (trimChars ((full.take (pos + 1)).drop lc)).isEmpty = true
      · rw [if_pos h2]
        rw [List.nil_append]
        refine ⟨fun x hx => ?_, ihPw⟩
        rcases ihMem x hx with ⟨ha, hb, hc2, hd, he⟩
        exact ⟨by omega, hb, hc2, hd, he⟩
      · rw [if_neg h2]
        have h3 : trimChars ((full.take (pos + 1)).drop lc) ≠ [] := by
          intro he
          apply h2
          rw [he]
          rfl
        constructor
        · intro x hx
          rcases List.mem_cons.mp hx with rfl | hx2
          · refine ⟨le_refl _, ?_, hstop, rfl,
              fun hmk => h3 (congrArg String.data hmk)⟩
            show lc < pos + 1
            omega
          · rcases ihMem x hx2 with ⟨ha, hb, hc2, hd, he⟩
            exact ⟨by omega, hb, hc2, hd, he⟩
        · rw [List.singleton_append, List.pairwise_cons]
          refine ⟨fun x hx => ?_, ihPw⟩
          rcases ihMem x hx with ⟨ha, _, _, _, _⟩
          show lc < x.start
          omega
    · rw [if_neg hcond]
      have hstep : pos + 1 + rest.length = full.length := by omega
      exact ih lc (pos + 1) (by omega) hstep

/-- C6: the sentences emitted by `splitSentencesWithPosition` have
`start < end`, offsets within the document, strictly increasing start
offsets (hence non-overlapping spans in source order), and every emitted
span contains a non-whitespace character (empty or whitespace-only spans
are never emitted). -/
theorem sentenceSpansValid :
    ∀ text : String,
      (∀ x ∈ splitSentencesWithPosition text,
        x.start < x.stop ∧ x.stop ≤ text.data.length ∧
        ∃ c ∈ (text.data.take x.stop).drop x.start, jsIsWs c = false) ∧
      (splitSentencesWithPosition text).Pairwise (fun a b => a.start < b.start) := by
  intro text
  rcases splitSentencesAux_invariants text.data text.data 0 0 (le_refl 0)
    (by simp) with ⟨hMem, hPw⟩
  refine ⟨fun x hx => ?_, hPw⟩
  rcases hMem x hx with ⟨_, hb, hc, hd, he⟩
  refine ⟨hb, hc, ?_⟩
  apply exists_nonWs_of_trimChars_ne_nil
  intro htrim
  apply he
  rw [hd, htrim]

theorem toNat_ofNat_of_lt {n : ℕ} (h : n < 55296) : (Char.ofNat n).toNat = n := by
  rw [Char.ofNat, dif_pos (Or.inl h)]
  rfl

theorem toLower_toLower (c : Char) : Char.toLower (Char.toLower c) = Char.toLower c := by
  by_cases h : c.toNat ≥ 65 ∧ c.toNat ≤ 90
  · have hin : c.toLower = Char.ofNat (c.toNat + 32) := by rw [Char.toLower, if_pos h]
    have h2 : (Char.ofNat (c.toNat + 32)).toNat = c.toNat + 32 :=
      toNat_ofNat_of_lt (by omega)
    rw [hin, Char.toLower, if_neg (by omega)]
  · have hin : c.toLower = c := by rw [Char.toLower, if_neg h]
    rw [hin, Char.toLower, if_neg h]

theorem data_mk (l : List Char) : (String.mk l).data = l := rfl

theorem map_eq_self_of {α : Type} {f : α → α} :
    ∀ l : List α, (∀ c ∈ l, f c = c) → l.map f = l := by
  intro l
  induction l with
  | nil => intro _; rfl
  | cons c rest ih =>
    intro h
    rw [List.map_cons, h c (List.mem_cons_self _ _),
      ih (fun d hd => h d (List.mem_cons_of_mem _ hd))]

theorem splitCharAux_mem_of {sep : Char} :
    ∀ (l acc : List Char) (w : List Char) (c : Char),
      (∀ d ∈ acc, d ≠ sep) → w ∈ splitCharAux sep acc l → c ∈ w →
      (c ∈ acc ∨ c ∈ l) ∧ c ≠ sep := by
  intro l
  induction l with
  | nil =>
    intro acc w c hacc hw hc
    rw [splitCharAux] at hw
    rcases List.mem_singleton.mp hw with rfl
    have := List.mem_reverse.mp hc
    exact ⟨Or.inl this, hacc c this⟩
  | cons d rest ih =>
    intro acc w c hacc hw hc
    rw [splitCharAux] at hw
    by_cases hd : d = sep
    · rw [if_pos hd] at hw
      rcases List.mem_cons.mp hw with rfl | hw2
      · have := List.mem_reverse.mp hc
        exact ⟨Or.inl this, hacc c this⟩
      · rcases ih [] w c (by simp) hw2 hc with ⟨h1 | h1, h2⟩
        · simp at h1
        · exact ⟨Or.inr (List.mem_cons_of_mem _ h1), h2⟩
    · rw [if_neg hd] at hw
      rcases ih (d :: acc) w c
        (fun e he => by
          rcases List.mem_cons.mp he with rfl | he2
          · exact hd
          · exact hacc e he2) hw hc with ⟨h1 | h1, h2⟩
      · rcases List.mem_cons.mp h1 with rfl | h3
        · exact ⟨Or.inr (List.mem_cons_self _ _), h2⟩
        · exact ⟨Or.inl h3, h2⟩
      · exact ⟨Or.inr (List.mem_cons_of_mem _ h1), h2⟩

theorem joinWordsChars_mem {c : Char} :
    ∀ ws : List (List Char), c ∈ joinWordsChars ws → c = ' ' ∨ ∃ w ∈ ws, c ∈ w := by
  intro ws
  induction ws with
  | nil => intro h; simp [joinWordsChars] at h
  | cons w rest ih =>
    intro h
    cases rest with
    | nil =>
      rw [joinWordsChars] at h
      exact Or.inr ⟨w, List.mem_singleton_self _, h⟩
    | cons w2 rest2 =>
      have hj : joinWordsChars (w :: w2 :: rest2) = w ++ ' ' :: joinWordsChars (w2 :: rest2) := rfl
      rw [hj] at h
      rcases List.mem_append.mp h with h1 | h1
      · exact Or.inr ⟨w, List.mem_cons_self _ _, h1⟩
      · rcases List.mem_cons.mp h1 with rfl | h2
        · exact Or.inl rfl
        · rcases ih h2 with h3 | ⟨w3, hw3, hc3⟩
          · exact Or.inl h3
          · exact Or.inr ⟨w3, List.mem_cons_of_mem _ hw3, hc3⟩

theorem collapseWsAux_append_of_solid {w : List Char}
    (hw : ∀ c ∈ w, jsIsWs c = false) :
    ∀ l : List Char, collapseWsAux false (w ++ l) = w ++ collapseWsAux false l := by
  induction w with
  | nil => intro l; rfl
  | cons c rest ih =>
    intro l
    rw [List.cons_append, collapseWsAux,
      if_neg (by simp [hw c (List.mem_cons_self _ _)]),
      ih (fun d hd => hw d (List.mem_cons_of_mem _ hd)) l, List.cons_append]

theorem collapseWsAux_true_eq_false {l : List Char}
    (h : l = [] ∨ ∃ d l2, l = d :: l2 ∧ jsIsWs d = false) :
    collapseWsAux true l = collapseWsAux false l := by
  rcases h with rfl | ⟨d, l2, rfl, hd⟩
  · rfl
  · rw [collapseWsAux, collapseWsAux, if_neg (by simp [hd]), if_neg (by simp [hd])]

theorem joinWordsChars_head_shape {w : List Char} {ws : List (List Char)}
    (hw : w ≠ []) (hsolid : ∀ c ∈ w, jsIsWs c = false) :
    joinWordsChars (w :: ws) = [] ∨
    ∃ d l2, joinWordsChars (w :: ws) = d :: l2 ∧ jsIsWs d = false := by
  cases w with
  | nil => exact absurd rfl hw
  | cons c w2 =>
    right
    cases ws with
    | nil => exact ⟨c, w2, rfl, hsolid c (List.mem_cons_self _ _)⟩
    | cons w3 ws2 =>
      exact ⟨c, w2 ++ ' ' :: joinWordsChars (w3 :: ws2), rfl,
        hsolid c (List.mem_cons_self _ _)⟩

theorem collapseWs_joinWordsChars :
    ∀ ws : List (List Char),
      (∀ w ∈ ws, w ≠ [] ∧ ∀ c ∈ w, jsIsWs c = false) →
      collapseWs (joinWordsChars ws) = joinWordsChars ws := by
  intro ws
  induction ws with
  | nil => intro _; rfl
  | cons w rest ih =>
    intro h
    rcases h w (List.mem_cons_self _ _) with ⟨hne, hsolid⟩
    cases rest with
    | nil =>
      show collapseWsAux false (joinWordsChars [w]) = joinWordsChars [w]
      have hj : joinWordsChars [w] = w := rfl
      rw [hj]
      have h2 := collapseWsAux_append_of_solid hsolid []
      rw [show collapseWsAux false [] = [] from rfl, List.append_nil] at h2
      exact h2
    | cons w2 rest2 =>
      have hj : joinWordsChars (w :: w2 :: rest2) =
        w ++ ' ' :: joinWordsChars (w2 :: rest2) := rfl
      show collapseWsAux false _ = _
      rw [hj, collapseWsAux_append_of_solid hsolid]
      have hsp : collapseWsAux false (' ' :: joinWordsChars (w2 :: rest2)) =
          ' ' :: collapseWsAux true (joinWordsChars (w2 :: rest2)) := by
        rw [collapseWsAux, if_pos (by decide : jsIsWs ' ' = true)]
        rfl
      rw [hsp]
      rcases h w2 (List.mem_cons_of_mem _ (List.mem_cons_self _ _)) with ⟨hne2, hsolid2⟩
      rw [collapseWsAux_true_eq_false (joinWordsChars_head_shape hne2 hsolid2)]
      have ihres := ih (fun v hv => h v (List.mem_cons_of_mem _ hv))
      show _ = w ++ ' ' :: joinWordsChars (w2 :: rest2)
      rw [show collapseWs (joinWordsChars (w2 :: rest2)) =
        collapseWsAux false (joinWordsChars (w2 :: rest2)) from rfl] at ihres
      rw [ihres]

theorem dropWhile_eq_self_of_head {l : List Char}
    (h : l = [] ∨ ∃ d l2, l = d :: l2 ∧ jsIsWs d = false) :
    l.dropWhile jsIsWs = l := by
  rcases h with rfl | ⟨d, l2, rfl, hd⟩
  · rfl
  · rw [List.dropWhile_cons, if_neg (by simp [hd])]

theorem trim_eq_self {l : List Char}
    (hhead : l = [] ∨ ∃ d l2, l = d :: l2 ∧ jsIsWs d = false)
    (hrev : l.reverse = [] ∨ ∃ d l2, l.reverse = d :: l2 ∧ jsIsWs d = false) :
    trimChars l = l := by
  rw [trimChars, dropWhile_eq_self_of_head hhead, dropWhile_eq_self_of_head hrev,
    List.reverse_reverse]

theorem joinWords_reverse_shape :
    ∀ ws : List (List Char), ws ≠ [] →
      (∀ w ∈ ws, w ≠ [] ∧ ∀ c ∈ w, jsIsWs c = false) →
      ∃ d l2, (joinWordsChars ws).reverse = d :: l2 ∧ jsIsWs d = false := by
  intro ws
  induction ws with
  | nil => intro h; exact absurd rfl h
  | cons w rest ih =>
    intro _ h
    rcases h w (List.mem_cons_self _ _) with ⟨hne, hsolid⟩
    cases rest with
    | nil =>
      have hj : joinWordsChars [w] = w := rfl
      rw [hj]
      cases hrev : w.reverse with
      | nil => exact absurd (List.reverse_eq_nil_iff.mp hrev) hne
      | cons d l2 =>
        refine ⟨d, l2, rfl, hsolid d ?_⟩
        have : d ∈ w.reverse := by rw [hrev]; exact List.mem_cons_self _ _
        exact List.mem_reverse.mp this
    | cons w2 rest2 =>
      have hj : joinWordsChars (w :: w2 :: rest2) =
        w ++ ' ' :: joinWordsChars (w2 :: rest2) := rfl
      rcases ih (by simp) (fun v hv => h v (List.mem_cons_of_mem _ hv)) with
        ⟨d, l2, hdl, hd⟩
      refine ⟨d, l2 ++ ' ' :: w.reverse, ?_, hd⟩
      rw [hj, List.reverse_append, List.reverse_cons, hdl]
      simp

theorem splitCharAux_append_solid {w : List Char} (hw : ∀ c ∈ w, c ≠ ' ') :
    ∀ (acc l : List Char),
      splitCharAux ' ' acc (w ++ l) = splitCharAux ' ' (w.reverse ++ acc) l := by
  induction w with
  | nil => intro acc l; rfl
  | cons c w2 ih =>
    intro acc l
    rw [List.cons_append, splitCharAux,
      if_neg (hw c (List.mem_cons_self _ _)),
      ih (fun d hd => hw d (List.mem_cons_of_mem _ hd)) (c :: acc) l]
    rw [List.reverse_cons, List.append_assoc]
    rfl

theorem splitChar_joinWords :
    ∀ ws : List (List Char), ws ≠ [] → (∀ w ∈ ws, ∀ c ∈ w, c ≠ ' ') →
      splitChar ' ' (joinWordsChars ws) = ws := by
  intro ws
  induction ws with
  | nil => intro h; exact absurd rfl h
  | cons w rest ih =>
    intro _ h
    cases rest with
    | nil =>
      have hj : joinWordsChars [w] = w ++ [] := by
        show w = w ++ []
        rw [List.append_nil]
      rw [splitChar, hj, splitCharAux_append_solid (h w (List.mem_cons_self _ _)) [] []]
      rw [splitCharAux]
      simp
    | cons w2 rest2 =>
      have hj : joinWordsChars (w :: w2 :: rest2) =
        w ++ ' ' :: joinWordsChars (w2 :: rest2) := rfl
      rw [splitChar, hj, splitCharAux_append_solid (h w (List.mem_cons_self _ _)) []]
      rw [splitCharAux, if_pos rfl]
      have ihres := ih (by simp) (fun v hv => h v (List.mem_cons_of_mem _ hv))
      rw [splitChar] at ihres
      rw [ihres]
      simp

theorem trimChars_subset (l : List Char) : trimChars l ⊆ l := by
  intro c hc
  rw [trimChars] at hc
  have h1 := List.mem_reverse.mp hc
  have h2 := (List.dropWhile_sublist _).subset h1
  have h3 := List.mem_reverse.mp h2
  exact (List.dropWhile_sublist _).subset h3

theorem nwList_word_props (isP : Char → Bool) (l : List Char) :
    ∀ w ∈ nwList isP l, w ≠ [] ∧ ∀ c ∈ w,
      Char.toLower c = c ∧ isP c = false ∧ jsIsWs c = false := by
  intro w hw
  rw [nwList] at hw
  have hw2 := List.mem_of_mem_filter hw
  have hne : w ≠ [] := by
    have h0 := List.of_mem_filter hw
    simp only [Bool.not_eq_true'] at h0
    intro hwe
    rw [hwe] at h0
    simp at h0
  refine ⟨hne, fun c hc => ?_⟩
  have hc4 := splitCharAux_mem_of _ [] w c (by simp) hw2 hc
  have hcs4 : c ∈ trimChars (collapseWs ((l.map Char.toLower).filter
      (fun c => !(isP c)))) := by
    rcases hc4.1 with h | h
    · simp at h
    · exact h
  have hcs3 := trimChars_subset _ hcs4
  rcases collapseWsAux_mem false _ hcs3 with rfl | ⟨hmem, hnws⟩
  · exact absurd rfl hc4.2
  · have hisP : isP c = false := by
      have h5 := List.of_mem_filter hmem
      simpa using h5
    have hmap := List.mem_of_mem_filter hmem
    rcases List.mem_map.mp hmap with ⟨a, _, rfl⟩
    exact ⟨toLower_toLower a, hisP, hnws⟩

theorem nwList_joinWords (isP : Char → Bool) (hsp : isP ' ' = false)
    (ws : List (List Char))
    (hws : ∀ w ∈ ws, w ≠ [] ∧ ∀ c ∈ w,
      Char.toLower c = c ∧ isP c = false ∧ jsIsWs c = false) :
    nwList isP (joinWordsChars ws) = ws := by
  cases ws with
  | nil => rfl
  | cons w0 rest =>
    rw [nwList]
    have hmap : (joinWordsChars (w0 :: rest)).map Char.toLower =
        joinWordsChars (w0 :: rest) := by
      apply map_eq_self_of
      intro c hc
      rcases joinWordsChars_mem _ hc with rfl | ⟨w, hw, hcw⟩
      · decide
      · exact ((hws w hw).2 c hcw).1
    rw [hmap]
    have hfil : (joinWordsChars (w0 :: rest)).filter (fun c => !(isP c)) =
        joinWordsChars (w0 :: rest) := by
      rw [List.filter_eq_self]
      intro c hc
      rcases joinWordsChars_mem _ hc with rfl | ⟨w, hw, hcw⟩
      · simp [hsp]
      · simp [((hws w hw).2 c hcw).2.1]
    rw [hfil]
    rw [collapseWs_joinWordsChars (w0 :: rest)
      (fun w hw => ⟨(hws w hw).1, fun c hc => ((hws w hw).2 c hc).2.2⟩)]
    rw [trim_eq_self
      (joinWordsChars_head_shape (hws w0 (List.mem_cons_self _ _)).1
        (fun c hc => ((hws w0 (List.mem_cons_self _ _)).2 c hc).2.2))
      (Or.inr (joinWords_reverse_shape (w0 :: rest) (by simp)
        (fun w hw => ⟨(hws w hw).1, fun c hc => ((hws w hw).2 c hc).2.2⟩)))]
    rw [splitChar_joinWords (w0 :: rest) (by simp)
      (fun w hw c hc heq => by
        have h2 := ((hws w hw).2 c hc).2.2
        rw [heq] at h2
        simp [jsIsWs] at h2)]
    rw [List.filter_eq_self]
    intro w hw
    have h3 := (hws w hw).1
    simp only [Bool.not_eq_true']
    cases hwe : w.isEmpty
    · rfl
    · exact absurd (List.isEmpty_iff.mp hwe) h3

theorem roundtrip_mk_data (xs : List (List Char)) :
    ((xs.map String.mk).map String.data) = xs := by
  rw [List.map_map]
  apply map_eq_self_of
  intro x _
  rfl

/-- C9: `normalizeToWords` (both the server and the client variant) is
idempotent: normalizing the space-join of the normalized words gives the
same word list back. -/
theorem normalizeToWordsIdem :
    ∀ text : String,
      normalizeToWords (joinSpace (normalizeToWords text)) = normalizeToWords text ∧
      normalizeToWordsClient (joinSpace (normalizeToWordsClient text)) =
        normalizeToWordsClient text := by
  intro text
  constructor
  · simp only [normalizeToWords, joinSpace, roundtrip_mk_data, data_mk]
    rw [nwList_joinWords isServerPunct (by decide) _ (nwList_word_props _ _)]
  · simp only [normalizeToWordsClient, joinSpace, roundtrip_mk_data, data_mk]
    rw [nwList_joinWords isClientPunct (by decide) _ (nwList_word_props _ _)]
